import Mathlib

/-!
Verification of the workflow-step configuration subsystem
(`server/core/config/raw/step.go` of the `atlantis` repository).

The Go code is shallowly embedded: Go maps become association lists
(`List (String × _)`) — Go map keys are distinct, and the code sorts keys
wherever diagnostic determinism matters; Go `error` results become
`Except String Unit` carrying the exact formatted message (`%q` is modelled
as surrounding double quotes, which coincides with Go for the names used
here); the `panic` at the end of `ToValid` becomes `none`; the generic
decoded YAML/JSON value becomes the inductive `Val`.  The external shell
allow-list `valid.AllowedRunShellValues` is owned by the surrounding
`valid` package, so it is passed as a parameter `shells`.
-/

namespace AtlantisStep

/-- Generic structured value as produced by the external YAML/JSON decoding
capability: a string scalar, a sequence, or a string-keyed mapping.
Serializing the Go `nil` interface (empty step) is modelled as `none` at the
`Option Val` level rather than as a constructor. -/
inductive Val where
  | str : String → Val
  | seq : List Val → Val
  | map : List (String × Val) → Val

/-- Raw step, mirroring Go `raw.Step`: four optionally populated shapes.
`Key` is case 1 (bare name), `CommandMap` case 2 (attribute map),
`Map` case 3 (extra_args map), `StringVal` case 4 (string shorthand). -/
structure Step where
  Key : Option String := none
  CommandMap : List (String × List (String × String)) := []
  Map : List (String × List (String × List String)) := []
  StringVal : List (String × String) := []
deriving DecidableEq, Repr

/-- Modelled from the spec: the canonical step descriptor `valid.Step`,
whose Go definition lives in the external `valid` package (outside the
provided sources); field set taken from §3 CanonicalStep and the field
wiring visible in `ToValid`.  Go zero values are the defaults. -/
structure ValidStep where
  StepName : String := ""
  ExtraArgs : List String := []
  EnvVarName : String := ""
  EnvVarValue : String := ""
  RunCommand : String := ""
  RunShell : String := ""
  Output : String := ""
deriving DecidableEq, Repr

/-- Go constant `ExtraArgsKey`. -/
def ExtraArgsKey : String := "extra_args"

/-- Go constant `NameArgKey`. -/
def NameArgKey : String := "name"

/-- Go constant `CommandArgKey`. -/
def CommandArgKey : String := "command"

/-- Go constant `ValueArgKey`. -/
def ValueArgKey : String := "value"

/-- Go constant `OutputArgKey`. -/
def OutputArgKey : String := "output"

/-- Go constant `ShellArgKey`. -/
def ShellArgKey : String := "shell"

/-- Go constant `RunStepName`. -/
def RunStepName : String := "run"

/-- Go constant `EnvStepName`. -/
def EnvStepName : String := "env"

/-- Go constant `MultiEnvStepName`. -/
def MultiEnvStepName : String := "multienv"

/-- Modelled from the spec: output-mode constant `valid.PostProcessRunOutputShow`
of the external `valid` package (§6: output modes `show, hide, strip_refreshing`). -/
def PostProcessRunOutputShow : String := "show"

/-- Modelled from the spec: output-mode constant `valid.PostProcessRunOutputHide`. -/
def PostProcessRunOutputHide : String := "hide"

/-- Modelled from the spec: output-mode constant `valid.PostProcessRunOutputStripRefreshing`. -/
def PostProcessRunOutputStripRefreshing : String := "strip_refreshing"

/-- Insertion into an ascending list, auxiliary to `sortStrings`. -/
def insertSorted (x : String) : List String → List String
  | [] => [x]
  | y :: ys => if y < x then y :: insertSorted x ys else x :: y :: ys

/-- Ascending insertion sort, modelling Go `sort.Strings` (the code sorts key
lists so diagnostics are deterministic). -/
def sortStrings : List String → List String
  | [] => []
  | x :: xs => insertSorted x (sortStrings xs)

/-- Go `fmt`'s `%q` verb for the plain names occurring here: surround with
double quotes. -/
def quote (s : String) : String := "\"" ++ s ++ "\""

/-- Run a check over each element in turn, returning the first error
(models a Go `for` loop that returns an error from its body). -/
def firstErr {α : Type} : List α → (α → Except String Unit) → Except String Unit
  | [], _ => .ok ()
  | x :: xs, f =>
    match f x with
    | .error e => .error e
    | .ok _ => firstErr xs f

/-- Go `Step.validStepName`: the nine recognized step names. -/
def validStepName (stepName : String) : Bool :=
  stepName == "init" ||
  stepName == "plan" ||
  stepName == "apply" ||
  stepName == EnvStepName ||
  stepName == MultiEnvStepName ||
  stepName == "show" ||
  stepName == "policy_check" ||
  stepName == "import" ||
  stepName == "state_rm"

/-- Go `Validate`'s `validStep` closure applied to the bare key. -/
def validStep (str : String) : Except String Unit :=
  if !(validStepName str) then
    .error (quote str ++ " is not a valid step type, maybe you omitted the 'run' key")
  else .ok ()

/-- Go `Validate`'s `extraArgs` closure: validates the `Map` shape. -/
def extraArgs (elem : List (String × List (String × List String))) : Except String Unit :=
  if (sortStrings (elem.map Prod.fst)).length > 1 then
    .error ("step element can only contain a single key, found " ++
      toString (sortStrings (elem.map Prod.fst)).length ++ ": " ++
      String.intercalate "," (sortStrings (elem.map Prod.fst)))
  else
    firstErr elem (fun p =>
      if !(validStepName p.1) then
        .error (quote p.1 ++ " is not a valid step type")
      else if (sortStrings (p.2.map Prod.fst)).length > 1 then
        .error ("built-in steps only support a single " ++ ExtraArgsKey ++ " key, found " ++
          toString (sortStrings (p.2.map Prod.fst)).length ++ ": " ++
          String.intercalate "," (sortStrings (p.2.map Prod.fst)))
      else
        firstErr p.2 (fun q =>
          if q.1 ≠ ExtraArgsKey then
            .error ("built-in steps only support a single " ++ ExtraArgsKey ++ " key, found " ++
              quote q.1 ++ " in step " ++ p.1)
          else .ok ()))

/-- Go `envOrRunOrMultiEnvStep`, `env` branch: key allow-list, mandatory
`name`, `value`/`command` mutual exclusion, `shell` only with `command`.
The loop over the sorted keys errors at the first disallowed key. -/
def envArgsCheck (args : List (String × String)) : Except String Unit :=
  match (sortStrings (args.map Prod.fst)).find? (fun k =>
      !(k == NameArgKey || k == CommandArgKey || k == ValueArgKey || k == ShellArgKey)) with
  | some k =>
    .error ("env steps only support keys " ++ quote NameArgKey ++ ", " ++ quote ValueArgKey ++
      ", " ++ quote CommandArgKey ++ " and " ++ quote ShellArgKey ++ ", found key " ++ quote k)
  | none =>
    if !((sortStrings (args.map Prod.fst)).contains NameArgKey) then
      .error ("env steps must have a " ++ quote NameArgKey ++ " key set")
    else if (sortStrings (args.map Prod.fst)).contains ValueArgKey &&
        (sortStrings (args.map Prod.fst)).contains CommandArgKey then
      .error ("env steps only support one of the " ++ quote ValueArgKey ++ " or " ++
        quote CommandArgKey ++ " keys, found both")
    else if (sortStrings (args.map Prod.fst)).contains ShellArgKey &&
        !((sortStrings (args.map Prod.fst)).contains CommandArgKey) then
      .error ("env steps only support " ++ quote ShellArgKey ++ " key in combination with " ++
        quote CommandArgKey ++ " key")
    else .ok ()

/-- Go `envOrRunOrMultiEnvStep`, `run`/`multienv` branch: the `output`
attribute check (performed only when the attribute is present). -/
def runMultiOutputCheck (stepName : String) (args : List (String × String)) :
    Except String Unit :=
  match args.lookup OutputArgKey with
  | some v =>
    if stepName == RunStepName && !(v == PostProcessRunOutputShow ||
        v == PostProcessRunOutputHide || v == PostProcessRunOutputStripRefreshing) then
      .error ("run step " ++ quote OutputArgKey ++ " option must be one of " ++
        quote PostProcessRunOutputShow ++ ", " ++ quote PostProcessRunOutputHide ++
        ", or " ++ quote PostProcessRunOutputStripRefreshing)
    else if stepName == MultiEnvStepName && !(v == PostProcessRunOutputShow ||
        v == PostProcessRunOutputHide) then
      .error ("multienv step " ++ quote OutputArgKey ++ " option must be " ++
        quote PostProcessRunOutputShow ++ " or " ++ quote PostProcessRunOutputHide)
    else .ok ()
  | none => .ok ()

/-- Go `envOrRunOrMultiEnvStep`, `run`/`multienv` branch: the `shell`
attribute must belong to the externally supplied allow-list
(`valid.AllowedRunShellValues`, passed as `shells`). -/
def runMultiShellCheck (shells : List String) (args : List (String × String)) :
    Except String Unit :=
  match args.lookup ShellArgKey with
  | some v =>
    if !(shells.contains v) then
      .error ("run step " ++ quote ShellArgKey ++ " value " ++ quote v ++
        " is not supported, supported values are: [" ++ String.intercalate ", " shells ++ "]")
    else .ok ()
  | none => .ok ()

/-- Go `envOrRunOrMultiEnvStep`, `run`/`multienv` branch: after deleting
`command`, `output` and `shell` from the copied map, any remaining keys are
reported sorted ascending. -/
def runMultiExtraKeysCheck (stepName : String) (args : List (String × String)) :
    Except String Unit :=
  if (sortStrings ((args.map Prod.fst).filter (fun k =>
      !(k == CommandArgKey || k == OutputArgKey || k == ShellArgKey)))).length > 0 then
    .error (quote stepName ++ " steps only support keys " ++ quote CommandArgKey ++ ", " ++
      quote OutputArgKey ++ " and " ++ quote ShellArgKey ++ ", found extra keys " ++
      quote (String.intercalate "," (sortStrings ((args.map Prod.fst).filter (fun k =>
        !(k == CommandArgKey || k == OutputArgKey || k == ShellArgKey))))))
  else .ok ()

/-- Go `envOrRunOrMultiEnvStep`, `run`/`multienv` branch in full: mandatory
`command`, then the `output`, `shell` and surplus-key checks in order. -/
def runMultiArgsCheck (shells : List String) (stepName : String)
    (args : List (String × String)) : Except String Unit :=
  if (args.lookup CommandArgKey).isNone then
    .error (quote stepName ++ " step must have a " ++ quote CommandArgKey ++ " key set")
  else
    match runMultiOutputCheck stepName args with
    | .error e => .error e
    | .ok _ =>
      match runMultiShellCheck shells args with
      | .error e => .error e
      | .ok _ => runMultiExtraKeysCheck stepName args

/-- Go `Validate`'s `envOrRunOrMultiEnvStep` closure: validates the
`CommandMap` shape; dispatches on the single top-level key. -/
def envOrRunOrMultiEnvStep (shells : List String)
    (elem : List (String × List (String × String))) : Except String Unit :=
  if (sortStrings (elem.map Prod.fst)).length > 1 then
    .error ("step element can only contain a single key, found " ++
      toString (sortStrings (elem.map Prod.fst)).length ++ ": " ++
      String.intercalate "," (sortStrings (elem.map Prod.fst)))
  else
    match sortStrings (elem.map Prod.fst) with
    | [] => .error "step element must contain at least 1 key"
    | stepName :: _ =>
      if stepName == EnvStepName then envArgsCheck ((elem.lookup stepName).getD [])
      else if stepName == RunStepName || stepName == MultiEnvStepName then
        runMultiArgsCheck shells stepName ((elem.lookup stepName).getD [])
      else .error (quote stepName ++ " is not a valid step type")

/-- Go `Validate`'s `runOrMultiEnvStep` closure: validates the `StringVal`
shape (single key, which must be `run` or `multienv`). -/
def runOrMultiEnvStep (elem : List (String × String)) : Except String Unit :=
  if (sortStrings (elem.map Prod.fst)).length > 1 then
    .error ("step element can only contain a single key, found " ++
      toString (sortStrings (elem.map Prod.fst)).length ++ ": " ++
      String.intercalate "," (sortStrings (elem.map Prod.fst)))
  else
    firstErr elem (fun p =>
      if !(p.1 == RunStepName || p.1 == MultiEnvStepName) then
        .error (quote p.1 ++ " is not a valid step type")
      else .ok ())

/-- Go `Step.Validate`: dispatches on the first populated shape in the order
`Key`, `Map`, `CommandMap`, `StringVal`; an empty step is an error. -/
def Validate (shells : List String) (s : Step) : Except String Unit :=
  match s.Key with
  | some k => validStep k
  | none =>
    if s.Map.length > 0 then extraArgs s.Map
    else if s.CommandMap.length > 0 then envOrRunOrMultiEnvStep shells s.CommandMap
    else if s.StringVal.length > 0 then runOrMultiEnvStep s.StringVal
    else .error "step element is empty"

/-- Go `Step.ToValid`: normalizes a validated step, dispatching in the order
`Key`, `CommandMap`, `Map`, `StringVal`; the final `panic` ("step was not
valid. This is a bug!") is modelled as `none`. -/
def ToValid (s : Step) : Option ValidStep :=
  match s.Key with
  | some k => some { StepName := k }
  | none =>
    match s.CommandMap with
    | (stepName, stepArgs) :: _ =>
      let step : ValidStep := {
        StepName := stepName
        EnvVarName := (stepArgs.lookup NameArgKey).getD ""
        RunCommand := (stepArgs.lookup CommandArgKey).getD ""
        EnvVarValue := (stepArgs.lookup ValueArgKey).getD ""
        Output := (stepArgs.lookup OutputArgKey).getD ""
        RunShell := (stepArgs.lookup ShellArgKey).getD "" }
      if step.StepName == RunStepName && step.Output == "" then
        some { step with Output := PostProcessRunOutputShow }
      else
        some step
    | [] =>
      match s.Map with
      | (stepName, stepArgs) :: _ =>
        some { StepName := stepName, ExtraArgs := (stepArgs.lookup ExtraArgsKey).getD [] }
      | [] =>
        match s.StringVal with
        | (stepName, v) :: _ => some { StepName := stepName, RunCommand := v }
        | [] => none

/-- The four target shapes `unmarshalGeneric` tries, in order: plain string,
`map[string]map[string][]string`, `map[string]map[string]string`,
`map[string]string`. -/
inductive Shape where
  | stringShape
  | extraArgsMapShape
  | attrMapShape
  | stringMapShape
deriving DecidableEq, Repr

/-- Structural-mismatch error returned by the external decoding capability
for one attempted target shape (the Go `err` returned by a failed
`unmarshal(&x)` names the single Go target type of that attempt). -/
inductive DecodeErr where
  | mismatch : Shape → DecodeErr
deriving DecidableEq, Repr

/-- Shapes named by a decode error (a single library error names the single
target type it failed to fill). -/
def shapesNamed : DecodeErr → List Shape
  | .mismatch sh => [sh]

/-- Decoding a list of generic values into Go `[]string`: every element must
be a string scalar. -/
def decodeStrings : List Val → Option (List String)
  | [] => some []
  | .str s :: rest => (decodeStrings rest).map (s :: ·)
  | .seq _ :: _ => none
  | .map _ :: _ => none

/-- Decoding mapping entries into Go `map[string]string`. -/
def decodeStringMapEntries : List (String × Val) → Option (List (String × String))
  | [] => some []
  | (k, .str s) :: rest => (decodeStringMapEntries rest).map ((k, s) :: ·)
  | (_, .seq _) :: _ => none
  | (_, .map _) :: _ => none

/-- Decoding mapping entries into Go `map[string][]string`. -/
def decodeStrListMapEntries : List (String × Val) → Option (List (String × List String))
  | [] => some []
  | (k, .seq vs) :: rest =>
    match decodeStrings vs with
    | some l => (decodeStrListMapEntries rest).map ((k, l) :: ·)
    | none => none
  | (_, .str _) :: _ => none
  | (_, .map _) :: _ => none

/-- Decoding mapping entries into Go `map[string]map[string][]string`. -/
def decodeExtraArgsEntries :
    List (String × Val) → Option (List (String × List (String × List String)))
  | [] => some []
  | (k, .map inner) :: rest =>
    match decodeStrListMapEntries inner with
    | some d => (decodeExtraArgsEntries rest).map ((k, d) :: ·)
    | none => none
  | (_, .str _) :: _ => none
  | (_, .seq _) :: _ => none

/-- Decoding mapping entries into Go `map[string]map[string]string`. -/
def decodeAttrMapEntries :
    List (String × Val) → Option (List (String × List (String × String)))
  | [] => some []
  | (k, .map inner) :: rest =>
    match decodeStringMapEntries inner with
    | some d => (decodeAttrMapEntries rest).map ((k, d) :: ·)
    | none => none
  | (_, .str _) :: _ => none
  | (_, .seq _) :: _ => none

/-- Attempt to decode a generic value as a plain string (shape 1). -/
def decodeString : Val → Option String
  | .str s => some s
  | .seq _ => none
  | .map _ => none

/-- Attempt to decode as Go `map[string]map[string][]string` (shape 2). -/
def decodeExtraArgsMap : Val → Option (List (String × List (String × List String)))
  | .map entries => decodeExtraArgsEntries entries
  | .str _ => none
  | .seq _ => none

/-- Attempt to decode as Go `map[string]map[string]string` (shape 3). -/
def decodeAttrMap : Val → Option (List (String × List (String × String)))
  | .map entries => decodeAttrMapEntries entries
  | .str _ => none
  | .seq _ => none

/-- Attempt to decode as Go `map[string]string` (shape 4). -/
def decodeStringMap : Val → Option (List (String × String))
  | .map entries => decodeStringMapEntries entries
  | .str _ => none
  | .seq _ => none

/-- Go `unmarshalGeneric`: try the four shapes in order; the first success
populates the corresponding field; if all fail, return `err` — the error of
the final (string-map) attempt. -/
def unmarshalGeneric (x : Val) : Except DecodeErr Step :=
  match decodeString x with
  | some s => .ok { Key := some s }
  | none =>
    match decodeExtraArgsMap x with
    | some m => .ok { Map := m }
    | none =>
      match decodeAttrMap x with
      | some m => .ok { CommandMap := m }
      | none =>
        match decodeStringMap x with
        | some m => .ok { StringVal := m }
        | none => .error (.mismatch .stringMapShape)

/-- Re-encoding of a Go `map[string]string` as a generic value. -/
def encStringMap (m : List (String × String)) : Val :=
  .map (m.map (fun p => (p.1, .str p.2)))

/-- Re-encoding of a Go `map[string]map[string]string` as a generic value. -/
def encAttrMap (m : List (String × List (String × String))) : Val :=
  .map (m.map (fun p => (p.1, encStringMap p.2)))

/-- Re-encoding of a Go `map[string]map[string][]string` as a generic value. -/
def encExtraArgsMap (m : List (String × List (String × List String))) : Val :=
  .map (m.map (fun p => (p.1, .map (p.2.map (fun q => (q.1, .seq (q.2.map .str)))))))

/-- Go `marshalGeneric`: emit the first populated field in the order
`StringVal`, `Map`, `CommandMap`, `Key`; an empty step marshals to the Go
`nil` interface (here `none`) without error. -/
def marshalGeneric (s : Step) : Option Val :=
  if s.StringVal.length ≠ 0 then some (encStringMap s.StringVal)
  else if s.Map.length ≠ 0 then some (encExtraArgsMap s.Map)
  else if s.CommandMap.length ≠ 0 then some (encAttrMap s.CommandMap)
  else
    match s.Key with
    | some k => some (.str k)
    | none => none


/-! Helper lemmas about the sorting and iteration primitives. -/

theorem mem_insertSorted {a x : String} {l : List String} :
    a ∈ insertSorted x l ↔ a = x ∨ a ∈ l := by
  induction l with
  | nil => simp [insertSorted]
  | cons y ys ih =>
    by_cases h : y < x
    · simp only [insertSorted, if_pos h, List.mem_cons, ih]
      tauto
    · simp only [insertSorted, if_neg h, List.mem_cons]

theorem mem_sortStrings {a : String} {l : List String} :
    a ∈ sortStrings l ↔ a ∈ l := by
  induction l with
  | nil => simp [sortStrings]
  | cons x xs ih => simp [sortStrings, mem_insertSorted, ih]

theorem length_insertSorted (x : String) (l : List String) :
    (insertSorted x l).length = l.length + 1 := by
  induction l with
  | nil => rfl
  | cons y ys ih =>
    by_cases h : y < x
    · simp only [insertSorted, if_pos h, List.length_cons, ih]
    · simp only [insertSorted, if_neg h, List.length_cons]

theorem length_sortStrings (l : List String) :
    (sortStrings l).length = l.length := by
  induction l with
  | nil => rfl
  | cons x xs ih => simp [sortStrings, length_insertSorted, ih]

theorem sortStrings_eq_nil {l : List String} : sortStrings l = [] ↔ l = [] := by
  constructor
  · intro h
    have := length_sortStrings l
    rw [h] at this
    exact List.length_eq_zero.mp this.symm
  · intro h; subst h; rfl

theorem contains_sortStrings (l : List String) (a : String) :
    ((sortStrings l).contains a = true) ↔ a ∈ l := by
  rw [List.elem_iff, mem_sortStrings]

theorem firstErr_ok_iff {α : Type} (l : List α) (f : α → Except String Unit) :
    firstErr l f = .ok () ↔ ∀ x ∈ l, f x = .ok () := by
  induction l with
  | nil => simp [firstErr]
  | cons x xs ih =>
    simp only [firstErr, List.mem_cons]
    cases h : f x with
    | error e => simp [h]
    | ok u => cases u; simp [h, ih]

/-! Inversion lemmas for the shape decoders: a successful decode determines
the original generic value as the re-encoding of the decoded content. -/

theorem decodeStrings_inv : ∀ {vs : List Val} {l : List String},
    decodeStrings vs = some l → l.map Val.str = vs := by
  intro vs
  induction vs with
  | nil => intro l h; simp [decodeStrings] at h; subst h; rfl
  | cons v rest ih =>
    intro l h
    cases v with
    | str s =>
      simp only [decodeStrings, Option.map_eq_some'] at h
      obtain ⟨l2, hl2, rfl⟩ := h
      simp [ih hl2]
    | seq _ => simp [decodeStrings] at h
    | map _ => simp [decodeStrings] at h

theorem decodeStringMapEntries_inv : ∀ {es : List (String × Val)} {m : List (String × String)},
    decodeStringMapEntries es = some m → m.map (fun p => (p.1, Val.str p.2)) = es := by
  intro es
  induction es with
  | nil => intro m h; simp [decodeStringMapEntries] at h; subst h; rfl
  | cons e rest ih =>
    intro m h
    obtain ⟨k, v⟩ := e
    cases v with
    | str s =>
      simp only [decodeStringMapEntries, Option.map_eq_some'] at h
      obtain ⟨m2, hm2, rfl⟩ := h
      simp [ih hm2]
    | seq _ => simp [decodeStringMapEntries] at h
    | map _ => simp [decodeStringMapEntries] at h

theorem decodeStrListMapEntries_inv :
    ∀ {es : List (String × Val)} {m : List (String × List String)},
    decodeStrListMapEntries es = some m →
      m.map (fun p => (p.1, Val.seq (p.2.map Val.str))) = es := by
  intro es
  induction es with
  | nil => intro m h; simp [decodeStrListMapEntries] at h; subst h; rfl
  | cons e rest ih =>
    intro m h
    obtain ⟨k, v⟩ := e
    cases v with
    | str _ => simp [decodeStrListMapEntries] at h
    | seq vs =>
      simp only [decodeStrListMapEntries] at h
      cases hv : decodeStrings vs with
      | none => rw [hv] at h; simp at h
      | some l =>
        rw [hv] at h
        simp only [Option.map_eq_some'] at h
        obtain ⟨m2, hm2, rfl⟩ := h
        simp [ih hm2, decodeStrings_inv hv]
    | map _ => simp [decodeStrListMapEntries] at h

theorem decodeAttrMapEntries_inv :
    ∀ {es : List (String × Val)} {m : List (String × List (String × String))},
    decodeAttrMapEntries es = some m →
      m.map (fun p => (p.1, Val.map (p.2.map (fun q => (q.1, Val.str q.2))))) = es := by
  intro es
  induction es with
  | nil => intro m h; simp [decodeAttrMapEntries] at h; subst h; rfl
  | cons e rest ih =>
    intro m h
    obtain ⟨k, v⟩ := e
    cases v with
    | str _ => simp [decodeAttrMapEntries] at h
    | seq _ => simp [decodeAttrMapEntries] at h
    | map inner =>
      simp only [decodeAttrMapEntries] at h
      cases hv : decodeStringMapEntries inner with
      | none => rw [hv] at h; simp at h
      | some d =>
        rw [hv] at h
        simp only [Option.map_eq_some'] at h
        obtain ⟨m2, hm2, rfl⟩ := h
        simp [ih hm2, decodeStringMapEntries_inv hv]

theorem decodeExtraArgsEntries_inv :
    ∀ {es : List (String × Val)} {m : List (String × List (String × List String))},
    decodeExtraArgsEntries es = some m →
      m.map (fun p => (p.1, Val.map (p.2.map (fun q => (q.1, Val.seq (q.2.map Val.str)))))) = es := by
  intro es
  induction es with
  | nil => intro m h; simp [decodeExtraArgsEntries] at h; subst h; rfl
  | cons e rest ih =>
    intro m h
    obtain ⟨k, v⟩ := e
    cases v with
    | str _ => simp [decodeExtraArgsEntries] at h
    | seq _ => simp [decodeExtraArgsEntries] at h
    | map inner =>
      simp only [decodeExtraArgsEntries] at h
      cases hv : decodeStrListMapEntries inner with
      | none => rw [hv] at h; simp at h
      | some d =>
        rw [hv] at h
        simp only [Option.map_eq_some'] at h
        obtain ⟨m2, hm2, rfl⟩ := h
        simp [ih hm2, decodeStrListMapEntries_inv hv]


theorem decodeString_inv : ∀ {x : Val} {s : String}, decodeString x = some s → x = .str s := by
  intro x s h
  cases x with
  | str a => simp only [decodeString, Option.some.injEq] at h; rw [h]
  | seq _ => simp [decodeString] at h
  | map _ => simp [decodeString] at h

/-! Branch lemmas for `marshalGeneric`. -/

theorem marshalGeneric_stringVal {s : Step} (h : s.StringVal ≠ []) :
    marshalGeneric s = some (encStringMap s.StringVal) := by
  simp [marshalGeneric, List.length_eq_zero, h]

theorem marshalGeneric_map {s : Step} (h0 : s.StringVal = []) (h : s.Map ≠ []) :
    marshalGeneric s = some (encExtraArgsMap s.Map) := by
  simp [marshalGeneric, List.length_eq_zero, h0, h]

theorem marshalGeneric_commandMap {s : Step} (h0 : s.StringVal = []) (h1 : s.Map = [])
    (h : s.CommandMap ≠ []) : marshalGeneric s = some (encAttrMap s.CommandMap) := by
  simp [marshalGeneric, List.length_eq_zero, h0, h1, h]

theorem marshalGeneric_key {s : Step} (h0 : s.StringVal = []) (h1 : s.Map = [])
    (h2 : s.CommandMap = []) :
    marshalGeneric s = match s.Key with | some k => some (.str k) | none => none := by
  simp [marshalGeneric, List.length_eq_zero, h0, h1, h2]

/-- C1: for every structured value `x` that is syntactically recognized as one
of the four step shapes — except the empty mapping, which is recognized (shape
2 decodes it to an empty `Map`) but re-encodes to null — decoding `x` via
`unmarshalGeneric` and re-encoding via `marshalGeneric` reproduces exactly `x`,
the original shape preserved rather than coerced through canonical form. -/
theorem C1_roundTrip (x : Val) (s : Step) (hx : x ≠ Val.map [])
    (h : unmarshalGeneric x = Except.ok s) : marshalGeneric s = some x := by
  unfold unmarshalGeneric at h
  cases h1 : decodeString x with
  | some k =>
    rw [h1] at h
    obtain rfl : ({ Key := some k } : Step) = s := by simpa using h
    rw [decodeString_inv h1]
    rfl
  | none =>
    rw [h1] at h
    cases h2 : decodeExtraArgsMap x with
    | some m =>
      rw [h2] at h
      obtain rfl : ({ Map := m } : Step) = s := by simpa using h
      cases x with
      | str a => simp [decodeExtraArgsMap] at h2
      | seq _ => simp [decodeExtraArgsMap] at h2
      | map es =>
        have hinv := decodeExtraArgsEntries_inv (by simpa [decodeExtraArgsMap] using h2)
        have hm : m ≠ [] := by
          rintro rfl
          simp only [List.map_nil] at hinv
          exact hx (by rw [← hinv])
        rw [marshalGeneric_map rfl hm]
        simp [encExtraArgsMap, hinv]
    | none =>
      rw [h2] at h
      cases h3 : decodeAttrMap x with
      | some m =>
        rw [h3] at h
        obtain rfl : ({ CommandMap := m } : Step) = s := by simpa using h
        cases x with
        | str a => simp [decodeAttrMap] at h3
        | seq _ => simp [decodeAttrMap] at h3
        | map es =>
          have hinv := decodeAttrMapEntries_inv (by simpa [decodeAttrMap] using h3)
          have hm : m ≠ [] := by
            rintro rfl
            simp only [List.map_nil] at hinv
            rw [← hinv] at h2
            simp [decodeExtraArgsMap, decodeExtraArgsEntries] at h2
          rw [marshalGeneric_commandMap rfl rfl hm]
          simp [encAttrMap, encStringMap, hinv]
      | none =>
        rw [h3] at h
        cases h4 : decodeStringMap x with
        | some m =>
          rw [h4] at h
          obtain rfl : ({ StringVal := m } : Step) = s := by simpa using h
          cases x with
          | str a => simp [decodeStringMap] at h4
          | seq _ => simp [decodeStringMap] at h4
          | map es =>
            have hinv := decodeStringMapEntries_inv (by simpa [decodeStringMap] using h4)
            have hm : m ≠ [] := by
              rintro rfl
              simp only [List.map_nil] at hinv
              rw [← hinv] at h2
              simp [decodeExtraArgsMap, decodeExtraArgsEntries] at h2
            rw [marshalGeneric_stringVal hm]
            simp [encStringMap, hinv]
        | none =>
          rw [h4] at h
          exact absurd h (by simp)

/-- C1 counterexample: the empty mapping is syntactically recognized (shape 2,
`map[string]map[string][]string`, decodes it into an empty `Map` field), yet
re-encoding yields null, not the empty mapping — so the round-trip claim fails
as universally stated. -/
theorem C1_roundTrip_counterexample :
    unmarshalGeneric (Val.map []) = Except.ok ({} : Step) ∧
    marshalGeneric ({} : Step) = none ∧
    (none : Option Val) ≠ some (Val.map []) :=
  ⟨rfl, rfl, by simp⟩

/-- C1 witness: the round trip at the concrete recognized value `"init"`. -/
theorem C1_roundTrip_witness :
    marshalGeneric { Key := some "init" } = some (Val.str "init") :=
  C1_roundTrip (Val.str "init") { Key := some "init" } (by simp) rfl


theorem validStepName_iff_mem (k : String) :
    validStepName k = true ↔
      k ∈ ["init", "plan", "apply", "env", "multienv", "show", "policy_check",
           "import", "state_rm"] := by
  simp only [validStepName, EnvStepName, MultiEnvStepName, Bool.or_eq_true, beq_iff_eq,
    List.mem_cons, List.not_mem_nil, or_false]
  tauto

/-- C2 (amended): for every Step populated only with the bare-name shape,
Validate succeeds iff the string is a member of the full nine-name step set
`init, plan, apply, env, multienv, show, policy_check, import, state_rm` —
not merely the seven builtin argument-free names, since `env` and `multienv`
are also accepted as bare keys — and for any string outside that set it fails
with a message suggesting the 'run' key was omitted. -/
theorem C2_bareName (shells : List String) (k : String) :
    (Validate shells { Key := some k } = .ok () ↔
      k ∈ ["init", "plan", "apply", "env", "multienv", "show", "policy_check",
           "import", "state_rm"]) ∧
    (validStepName k = false →
      Validate shells { Key := some k } =
        .error (quote k ++ " is not a valid step type, maybe you omitted the 'run' key")) := by
  have hv : Validate shells { Key := some k } = validStep k := rfl
  constructor
  · rw [hv, ← validStepName_iff_mem]
    unfold validStep
    cases hb : validStepName k <;> simp [hb]
  · intro hb
    rw [hv]
    unfold validStep
    rw [hb]
    rfl

/-- C2 counterexample: the bare key `env` is accepted by Validate although it
is not a member of the builtin argument-free step-name set named by the
claim. -/
theorem C2_bareName_counterexample :
    Validate [] { Key := some "env" } = .ok () ∧
    "env" ∉ ["init", "plan", "apply", "show", "policy_check", "import", "state_rm"] :=
  ⟨rfl, by decide⟩

/-- C2 witness: the amended theorem at the concrete rejected key `foo`. -/
theorem C2_bareName_witness :
    Validate [] { Key := some "foo" } =
      .error "\"foo\" is not a valid step type, maybe you omitted the 'run' key" :=
  (C2_bareName [] "foo").2 rfl

/-- C3: for every Step accepted by Validate, ToValid is total and (being a
pure function of the step) deterministic, returning exactly one canonical
step; the internal-consistency panic at the end of ToValid — modelled as the
`none` result — is unreachable for any Step on which Validate succeeded. -/
theorem C3_toValid_total (shells : List String) (s : Step)
    (h : Validate shells s = .ok ()) : ∃ v, ToValid s = some v := by
  obtain ⟨k, cm, m, sv⟩ := s
  cases k with
  | some k0 => exact ⟨{ StepName := k0 }, rfl⟩
  | none =>
    cases cm with
    | cons e rest =>
      obtain ⟨n, a⟩ := e
      dsimp only [ToValid]
      split
      · exact ⟨_, rfl⟩
      · exact ⟨_, rfl⟩
    | nil =>
      cases m with
      | cons e rest => exact ⟨_, rfl⟩
      | nil =>
        cases sv with
        | cons e rest => exact ⟨_, rfl⟩
        | nil => simp [Validate] at h

/-- C3 witness: the theorem applied at the validated bare step `plan`. -/
theorem C3_toValid_total_witness : ∃ v, ToValid { Key := some "plan" } = some v :=
  C3_toValid_total [] { Key := some "plan" } rfl

/-- C4 (amended): the Serializer emits the first populated field in the fixed
precedence string-shorthand (`StringVal`), extra-args map (`Map`),
attribute map (`CommandMap`), bare name (`Key`) — the extra-args map takes
precedence over the attribute map, not the reverse order given in the claim —
and a Step with nothing populated serializes to an explicit null (`none`)
without raising an error. -/
theorem C4_serializerPrecedence (s : Step) :
    (s.StringVal ≠ [] → marshalGeneric s = some (encStringMap s.StringVal)) ∧
    (s.StringVal = [] → s.Map ≠ [] → marshalGeneric s = some (encExtraArgsMap s.Map)) ∧
    (s.StringVal = [] → s.Map = [] → s.CommandMap ≠ [] →
      marshalGeneric s = some (encAttrMap s.CommandMap)) ∧
    (s.StringVal = [] → s.Map = [] → s.CommandMap = [] → ∀ k, s.Key = some k →
      marshalGeneric s = some (Val.str k)) ∧
    (s.StringVal = [] → s.Map = [] → s.CommandMap = [] → s.Key = none →
      marshalGeneric s = none) :=
  ⟨fun h => marshalGeneric_stringVal h,
   fun h0 h => marshalGeneric_map h0 h,
   fun h0 h1 h => marshalGeneric_commandMap h0 h1 h,
   fun h0 h1 h2 k hk => by rw [marshalGeneric_key h0 h1 h2, hk],
   fun h0 h1 h2 hk => by rw [marshalGeneric_key h0 h1 h2, hk]⟩

/-- C4 counterexample: with both the attribute map and the extra-args map
populated, the code emits the extra-args map, whereas the claimed precedence
(attribute map before extra-args map) predicts the attribute map; the two
emitted values differ. -/
theorem C4_serializerPrecedence_counterexample :
    marshalGeneric { CommandMap := [("run", [("command", "c")])],
                     Map := [("plan", [("extra_args", ["a"])])] } =
      some (encExtraArgsMap [("plan", [("extra_args", ["a"])])]) ∧
    encExtraArgsMap [("plan", [("extra_args", ["a"])])] ≠
      encAttrMap [("run", [("command", "c")])] := by
  refine ⟨rfl, ?_⟩
  simp [encExtraArgsMap, encAttrMap, encStringMap]

/-- C4 witness: the empty step marshals to null. -/
theorem C4_serializerPrecedence_witness : marshalGeneric ({} : Step) = none :=
  (C4_serializerPrecedence {}).2.2.2.2 rfl rfl rfl rfl


/-! Helper characterizations of the `CommandMap` validator. -/

theorem Validate_commandMap_singleton (shells : List String) (name : String)
    (args : List (String × String)) :
    Validate shells { CommandMap := [(name, args)] } =
      envOrRunOrMultiEnvStep shells [(name, args)] := rfl

theorem envOrRun_singleton (shells : List String) (name : String)
    (args : List (String × String)) :
    envOrRunOrMultiEnvStep shells [(name, args)] =
      (if name == EnvStepName then envArgsCheck args
       else if name == RunStepName || name == MultiEnvStepName then
         runMultiArgsCheck shells name args
       else .error (quote name ++ " is not a valid step type")) := by
  simp [envOrRunOrMultiEnvStep, sortStrings, insertSorted, List.lookup]

theorem runMultiArgsCheck_ok_iff (shells : List String) (stepName : String)
    (args : List (String × String)) :
    runMultiArgsCheck shells stepName args = .ok () ↔
      ((args.lookup CommandArgKey).isSome = true ∧
       runMultiOutputCheck stepName args = .ok () ∧
       runMultiShellCheck shells args = .ok () ∧
       runMultiExtraKeysCheck stepName args = .ok ()) := by
  unfold runMultiArgsCheck
  cases hc : args.lookup CommandArgKey with
  | none => simp [hc]
  | some c =>
    simp only [hc, Option.isNone_some, Bool.false_eq_true, if_false, Option.isSome_some,
      true_and]
    cases ho : runMultiOutputCheck stepName args with
    | error e => simp
    | ok u => cases u; simp only [true_and]
              cases hs : runMultiShellCheck shells args with
              | error e => simp
              | ok u2 => cases u2; simp

theorem runMultiOutputCheck_run_ok (args : List (String × String)) :
    runMultiOutputCheck RunStepName args = .ok () ↔
      ∀ o, args.lookup OutputArgKey = some o →
        (o = PostProcessRunOutputShow ∨ o = PostProcessRunOutputHide ∨
         o = PostProcessRunOutputStripRefreshing) := by
  unfold runMultiOutputCheck
  cases ho : args.lookup OutputArgKey with
  | none => simp
  | some v =>
    cases hb : (v == PostProcessRunOutputShow || v == PostProcessRunOutputHide ||
        v == PostProcessRunOutputStripRefreshing) with
    | false => simp_all [RunStepName, MultiEnvStepName]
    | true =>
      simp_all [RunStepName, MultiEnvStepName]
      tauto

theorem runMultiOutputCheck_multiEnv_ok (args : List (String × String)) :
    runMultiOutputCheck MultiEnvStepName args = .ok () ↔
      ∀ o, args.lookup OutputArgKey = some o →
        (o = PostProcessRunOutputShow ∨ o = PostProcessRunOutputHide) := by
  unfold runMultiOutputCheck
  cases ho : args.lookup OutputArgKey with
  | none => simp
  | some v =>
    cases hb : (v == PostProcessRunOutputShow || v == PostProcessRunOutputHide) with
    | false => simp_all [RunStepName, MultiEnvStepName]
    | true =>
      simp_all [RunStepName, MultiEnvStepName]
      tauto

theorem runMultiShellCheck_ok (shells : List String) (args : List (String × String)) :
    runMultiShellCheck shells args = .ok () ↔
      ∀ v, args.lookup ShellArgKey = some v → v ∈ shells := by
  unfold runMultiShellCheck
  cases hs : args.lookup ShellArgKey with
  | none => simp
  | some v => cases hb : shells.contains v <;> simp_all [List.elem_iff]

theorem runMultiExtraKeysCheck_ok (stepName : String) (args : List (String × String)) :
    runMultiExtraKeysCheck stepName args = .ok () ↔
      ∀ k ∈ args.map Prod.fst,
        (k = CommandArgKey ∨ k = OutputArgKey ∨ k = ShellArgKey) := by
  have hpt : ∀ k : String,
      (!(k == CommandArgKey || k == OutputArgKey || k == ShellArgKey)) = true ↔
        ¬(k = CommandArgKey ∨ k = OutputArgKey ∨ k = ShellArgKey) := by
    intro k
    simp only [Bool.not_eq_true', Bool.or_eq_false_iff, beq_eq_false_iff_ne, ne_eq, not_or]
    tauto
  have hiff : ((args.map Prod.fst).filter
      (fun k => !(k == CommandArgKey || k == OutputArgKey || k == ShellArgKey))) = [] ↔
      ∀ k ∈ args.map Prod.fst,
        (k = CommandArgKey ∨ k = OutputArgKey ∨ k = ShellArgKey) := by
    rw [List.filter_eq_nil_iff]
    constructor
    · intro h k hk
      by_contra hcon
      exact h k hk ((hpt k).mpr hcon)
    · intro h k hk hpred
      exact (hpt k).mp hpred (h k hk)
  rw [← hiff]
  unfold runMultiExtraKeysCheck
  by_cases hL : (args.map Prod.fst).filter
      (fun k => !(k == CommandArgKey || k == OutputArgKey || k == ShellArgKey)) = []
  · rw [if_neg]
    · exact iff_of_true rfl hL
    · rw [hL]
      simp [sortStrings]
  · have hpos : 0 < (sortStrings ((args.map Prod.fst).filter
        (fun k => !(k == CommandArgKey || k == OutputArgKey || k == ShellArgKey)))).length := by
      rw [length_sortStrings]
      exact List.length_pos.mpr hL
    rw [if_pos hpos]
    exact iff_of_false (by simp) hL

/-- C5: for every Step whose attribute map has the sole key `run` or
`multienv`, Validate succeeds iff a `command` attribute is present, any
`output` attribute is `show`/`hide`/`strip_refreshing` for `run` and only
`show`/`hide` for `multienv`, any `shell` attribute is in the externally
supplied allow-list, and no attribute beyond `command`, `output`, `shell`
appears; in the surplus-keys case it fails listing the surplus keys sorted
ascending. -/
theorem C5_runMultiAttr (shells : List String) (name : String)
    (args : List (String × String))
    (hname : name = RunStepName ∨ name = MultiEnvStepName) :
    (Validate shells { CommandMap := [(name, args)] } = .ok () ↔
      ((args.lookup CommandArgKey).isSome = true ∧
       (∀ o, args.lookup OutputArgKey = some o →
         (name = RunStepName →
           (o = PostProcessRunOutputShow ∨ o = PostProcessRunOutputHide ∨
            o = PostProcessRunOutputStripRefreshing)) ∧
         (name = MultiEnvStepName →
           (o = PostProcessRunOutputShow ∨ o = PostProcessRunOutputHide))) ∧
       (∀ v, args.lookup ShellArgKey = some v → v ∈ shells) ∧
       (∀ k ∈ args.map Prod.fst,
         (k = CommandArgKey ∨ k = OutputArgKey ∨ k = ShellArgKey)))) ∧
    ((args.lookup CommandArgKey).isSome = true →
     runMultiOutputCheck name args = .ok () →
     runMultiShellCheck shells args = .ok () →
     (args.map Prod.fst).filter
         (fun k => !(k == CommandArgKey || k == OutputArgKey || k == ShellArgKey)) ≠ [] →
     Validate shells { CommandMap := [(name, args)] } =
       .error (quote name ++ " steps only support keys " ++ quote CommandArgKey ++ ", " ++
         quote OutputArgKey ++ " and " ++ quote ShellArgKey ++ ", found extra keys " ++
         quote (String.intercalate ","
           (sortStrings ((args.map Prod.fst).filter
             (fun k => !(k == CommandArgKey || k == OutputArgKey || k == ShellArgKey))))))) := by
  have hval : Validate shells { CommandMap := [(name, args)] } =
      runMultiArgsCheck shells name args := by
    rw [Validate_commandMap_singleton, envOrRun_singleton]
    rcases hname with rfl | rfl <;> simp [RunStepName, MultiEnvStepName, EnvStepName]
  constructor
  · rw [hval, runMultiArgsCheck_ok_iff, runMultiShellCheck_ok, runMultiExtraKeysCheck_ok]
    rcases hname with rfl | rfl
    · rw [runMultiOutputCheck_run_ok]
      constructor
      · rintro ⟨h1, h2, h3, h4⟩
        exact ⟨h1, fun o ho => ⟨fun _ => h2 o ho,
          fun hr => absurd hr (by simp [RunStepName, MultiEnvStepName])⟩, h3, h4⟩
      · rintro ⟨h1, h2, h3, h4⟩
        exact ⟨h1, fun o ho => (h2 o ho).1 rfl, h3, h4⟩
    · rw [runMultiOutputCheck_multiEnv_ok]
      constructor
      · rintro ⟨h1, h2, h3, h4⟩
        exact ⟨h1, fun o ho => ⟨fun hr => absurd hr
          (by simp [RunStepName, MultiEnvStepName]), fun _ => h2 o ho⟩, h3, h4⟩
      · rintro ⟨h1, h2, h3, h4⟩
        exact ⟨h1, fun o ho => (h2 o ho).2 rfl, h3, h4⟩
  · intro hc ho hs hne
    rw [hval]
    unfold runMultiArgsCheck
    obtain ⟨cv, hcv⟩ := Option.isSome_iff_exists.mp hc
    rw [hcv, ho, hs]
    unfold runMultiExtraKeysCheck
    have hpos : 0 < (sortStrings ((args.map Prod.fst).filter
        (fun k => !(k == CommandArgKey || k == OutputArgKey || k == ShellArgKey)))).length := by
      rw [length_sortStrings]
      exact List.length_pos.mpr hne
    rw [if_pos hpos]
    rfl

/-- C5 witness: the theorem at a concrete accepted `run` attribute map. -/
theorem C5_runMultiAttr_witness :
    Validate ["sh"] { CommandMap := [("run", [("command", "c")])] } = .ok () :=
  (C5_runMultiAttr ["sh"] "run" [("command", "c")] (Or.inl rfl)).1.mpr
    ⟨rfl,
     fun o ho => Option.noConfusion ho,
     fun v hv => Option.noConfusion hv,
     by decide⟩


theorem envArgsCheck_ok (args : List (String × String)) :
    envArgsCheck args = .ok () ↔
      ((∀ k ∈ args.map Prod.fst,
          (k = NameArgKey ∨ k = CommandArgKey ∨ k = ValueArgKey ∨ k = ShellArgKey)) ∧
       NameArgKey ∈ args.map Prod.fst ∧
       ¬(ValueArgKey ∈ args.map Prod.fst ∧ CommandArgKey ∈ args.map Prod.fst) ∧
       (ShellArgKey ∈ args.map Prod.fst → CommandArgKey ∈ args.map Prod.fst)) := by
  unfold envArgsCheck
  cases hf : (sortStrings (args.map Prod.fst)).find? (fun k =>
      !(k == NameArgKey || k == CommandArgKey || k == ValueArgKey || k == ShellArgKey)) with
  | some k =>
    have hk1 : k ∈ args.map Prod.fst := mem_sortStrings.mp (List.mem_of_find?_eq_some hf)
    have hk2 := List.find?_some hf
    apply iff_of_false (by simp)
    rintro ⟨hall, -, -, -⟩
    rcases hall k hk1 with rfl | rfl | rfl | rfl <;> simp at hk2
  | none =>
    have hall : ∀ k ∈ args.map Prod.fst,
        (k = NameArgKey ∨ k = CommandArgKey ∨ k = ValueArgKey ∨ k = ShellArgKey) := by
      intro k hk
      have hnf := List.find?_eq_none.mp hf k (mem_sortStrings.mpr hk)
      have hb : (k == NameArgKey || k == CommandArgKey || k == ValueArgKey ||
          k == ShellArgKey) = true := by
        cases hbb : (k == NameArgKey || k == CommandArgKey || k == ValueArgKey ||
            k == ShellArgKey) with
        | true => rfl
        | false => exact absurd (by rw [hbb]; rfl) hnf
      simpa [or_assoc] using hb
    by_cases hn : NameArgKey ∈ args.map Prod.fst <;>
      by_cases hv : ValueArgKey ∈ args.map Prod.fst <;>
      by_cases hc : CommandArgKey ∈ args.map Prod.fst <;>
      by_cases hs : ShellArgKey ∈ args.map Prod.fst <;>
      simp [hn, hv, hc, hs, hall, mem_sortStrings] <;>
      exact fun k x hx => hall k (List.mem_map_of_mem Prod.fst hx)

/-- C6: for every Step whose attribute map has the sole key `env`, Validate
succeeds iff every attribute key is one of `name`, `command`, `value`,
`shell`, a `name` key is present, `value` and `command` are not both present,
and `shell` appears only together with `command`; when `value` and `command`
are both present (and the other rules hold) it fails naming the offending
pair. -/
theorem C6_envAttr (shells : List String) (args : List (String × String)) :
    (Validate shells { CommandMap := [(EnvStepName, args)] } = .ok () ↔
      ((∀ k ∈ args.map Prod.fst,
          (k = NameArgKey ∨ k = CommandArgKey ∨ k = ValueArgKey ∨ k = ShellArgKey)) ∧
       NameArgKey ∈ args.map Prod.fst ∧
       ¬(ValueArgKey ∈ args.map Prod.fst ∧ CommandArgKey ∈ args.map Prod.fst) ∧
       (ShellArgKey ∈ args.map Prod.fst → CommandArgKey ∈ args.map Prod.fst))) ∧
    ((∀ k ∈ args.map Prod.fst,
        (k = NameArgKey ∨ k = CommandArgKey ∨ k = ValueArgKey ∨ k = ShellArgKey)) →
     NameArgKey ∈ args.map Prod.fst →
     ValueArgKey ∈ args.map Prod.fst → CommandArgKey ∈ args.map Prod.fst →
     Validate shells { CommandMap := [(EnvStepName, args)] } =
       .error ("env steps only support one of the " ++ quote ValueArgKey ++ " or " ++
         quote CommandArgKey ++ " keys, found both")) := by
  have hval : Validate shells { CommandMap := [(EnvStepName, args)] } = envArgsCheck args := by
    rw [Validate_commandMap_singleton, envOrRun_singleton]
    simp
  constructor
  · rw [hval]
    exact envArgsCheck_ok args
  · intro hall hn hv hc
    rw [hval]
    unfold envArgsCheck
    have hf : (sortStrings (args.map Prod.fst)).find? (fun k =>
        !(k == NameArgKey || k == CommandArgKey || k == ValueArgKey || k == ShellArgKey)) =
          none := by
      rw [List.find?_eq_none]
      intro x hx
      rcases hall x (mem_sortStrings.mp hx) with rfl | rfl | rfl | rfl <;> simp
    rw [hf]
    have m1 : NameArgKey ∈ sortStrings (args.map Prod.fst) := mem_sortStrings.mpr hn
    have m2 : ValueArgKey ∈ sortStrings (args.map Prod.fst) := mem_sortStrings.mpr hv
    have m3 : CommandArgKey ∈ sortStrings (args.map Prod.fst) := mem_sortStrings.mpr hc
    simp [m1, m2, m3]

/-- C6 witness: the theorem at a concrete accepted `env` attribute map. -/
theorem C6_envAttr_witness :
    Validate [] { CommandMap := [("env", [("name", "n"), ("value", "v")])] } = .ok () :=
  (C6_envAttr [] [("name", "n"), ("value", "v")]).1.mpr
    ⟨by decide, by decide, by decide, by decide⟩

theorem firstErr_singleton {α : Type} (x : α) (f : α → Except String Unit) :
    firstErr [x] f = f x := by
  cases h : f x with
  | error e => simp [firstErr, h]
  | ok u => cases u; simp [firstErr, h]

theorem extraArgs_singleton (n : String) (attrs : List (String × List String)) :
    extraArgs [(n, attrs)] =
      (if !(validStepName n) then .error (quote n ++ " is not a valid step type")
       else if (sortStrings (attrs.map Prod.fst)).length > 1 then
         .error ("built-in steps only support a single " ++ ExtraArgsKey ++ " key, found " ++
           toString (sortStrings (attrs.map Prod.fst)).length ++ ": " ++
           String.intercalate "," (sortStrings (attrs.map Prod.fst)))
       else firstErr attrs (fun q =>
         if q.1 ≠ ExtraArgsKey then
           .error ("built-in steps only support a single " ++ ExtraArgsKey ++ " key, found " ++
             quote q.1 ++ " in step " ++ n)
         else .ok ())) := by
  simp only [extraArgs, List.map_cons, List.map_nil, sortStrings, insertSorted,
    List.length_cons, List.length_nil, firstErr_singleton]
  simp


/-- C7 (amended): for every Step populated with the extra-args shape,
Validate succeeds iff the map has exactly one top-level key that is a valid
step name and that key's value contains at most one attribute key which, when
present, must be `extra_args` (a value with no attribute keys at all is also
accepted); when several attribute keys are present the failure message lists
them sorted ascending. -/
theorem C7_extraArgsShape (shells : List String)
    (m : List (String × List (String × List String))) :
    (Validate shells { Map := m } = .ok () ↔
      ∃ n attrs, m = [(n, attrs)] ∧ validStepName n = true ∧ attrs.length ≤ 1 ∧
        ∀ q ∈ attrs, q.1 = ExtraArgsKey) ∧
    (∀ n attrs, m = [(n, attrs)] → validStepName n = true → 1 < attrs.length →
      Validate shells { Map := m } =
        .error ("built-in steps only support a single " ++ ExtraArgsKey ++ " key, found " ++
          toString attrs.length ++ ": " ++
          String.intercalate "," (sortStrings (attrs.map Prod.fst)))) := by
  cases m with
  | nil =>
    constructor
    · apply iff_of_false
      · simp [Validate]
      · rintro ⟨n, attrs, h, -⟩
        exact List.noConfusion h
    · intro n attrs h
      exact absurd h (by simp)
  | cons e rest =>
    have hval : Validate shells { Map := e :: rest } = extraArgs (e :: rest) := by
      simp [Validate]
    cases rest with
    | cons e2 rest2 =>
      have hlen : (sortStrings ((e :: e2 :: rest2).map Prod.fst)).length > 1 := by
        rw [length_sortStrings]
        simp
      have herr : extraArgs (e :: e2 :: rest2) =
          .error ("step element can only contain a single key, found " ++
            toString (sortStrings ((e :: e2 :: rest2).map Prod.fst)).length ++ ": " ++
            String.intercalate "," (sortStrings ((e :: e2 :: rest2).map Prod.fst))) := by
        unfold extraArgs
        rw [if_pos hlen]
      constructor
      · rw [hval, herr]
        apply iff_of_false (by simp)
        rintro ⟨n, attrs, h, -⟩
        simp at h
      · intro n attrs h
        exact absurd h (by simp)
    | nil =>
      obtain ⟨n, attrs⟩ := e
      constructor
      · rw [hval, extraArgs_singleton]
        by_cases hvn : validStepName n = true
        · have hlen2 : (sortStrings (attrs.map Prod.fst)).length = attrs.length := by
            rw [length_sortStrings, List.length_map]
          by_cases hle : attrs.length ≤ 1
          · rw [if_neg (by simp [hvn]), if_neg (by rw [hlen2]; omega), firstErr_ok_iff]
            constructor
            · intro h
              refine ⟨n, attrs, rfl, hvn, hle, fun q hq => ?_⟩
              by_contra hne
              have := h q hq
              rw [if_pos hne] at this
              exact Except.noConfusion this
            · rintro ⟨n2, attrs2, heq, -, -, hkeys⟩
              obtain ⟨rfl, rfl⟩ : n = n2 ∧ attrs = attrs2 := by simpa using heq
              intro q hq
              simp [hkeys q hq]
          · rw [if_neg (by simp [hvn]), if_pos (by rw [hlen2]; omega)]
            apply iff_of_false (by simp)
            rintro ⟨n2, attrs2, heq, -, hle2, -⟩
            obtain ⟨rfl, rfl⟩ : n = n2 ∧ attrs = attrs2 := by simpa using heq
            exact hle hle2
        · have hvn2 : validStepName n = false := by
            cases hb : validStepName n with
            | true => exact absurd hb hvn
            | false => rfl
          rw [if_pos (by simp [hvn2])]
          apply iff_of_false (by simp)
          rintro ⟨n2, attrs2, heq, hv2, -, -⟩
          obtain ⟨rfl, rfl⟩ : n = n2 ∧ attrs = attrs2 := by simpa using heq
          exact hvn hv2
      · intro n2 attrs2 heq hv2 hgt
        obtain ⟨rfl, rfl⟩ : n = n2 ∧ attrs = attrs2 := by simpa using heq
        rw [hval, extraArgs_singleton]
        have hlen2 : (sortStrings (attrs.map Prod.fst)).length = attrs.length := by
          rw [length_sortStrings, List.length_map]
        rw [if_neg (by simp [hv2]), if_pos (by rw [hlen2]; omega), hlen2]

/-- C7 counterexample: `plan` with an empty attribute map — zero attribute
keys rather than the exactly one required by the claim — is accepted by
Validate. -/
theorem C7_extraArgsShape_counterexample :
    Validate [] { Map := [("plan", [])] } = .ok () ∧
    ([] : List (String × List String)).length ≠ 1 :=
  ⟨rfl, by decide⟩

/-- C7 witness: the amended theorem at a concrete accepted extra-args step. -/
theorem C7_extraArgsShape_witness :
    Validate [] { Map := [("plan", [("extra_args", ["a"])])] } = .ok () :=
  (C7_extraArgsShape [] [("plan", [("extra_args", ["a"])])]).1.mpr
    ⟨"plan", [("extra_args", ["a"])], rfl, rfl, by decide, by decide⟩

/-- C9 (amended): when a decoded value matches none of the four shapes (tried
in the fixed order plain string, extra-args map, attribute map, string map),
`unmarshalGeneric` fails by propagating the structural-mismatch error of the
final attempt — an error naming only the string-map shape, not all four
attempted shapes. -/
theorem C9_decodeFailure (x : Val)
    (h1 : decodeString x = none) (h2 : decodeExtraArgsMap x = none)
    (h3 : decodeAttrMap x = none) (h4 : decodeStringMap x = none) :
    unmarshalGeneric x = .error (DecodeErr.mismatch Shape.stringMapShape) := by
  unfold unmarshalGeneric
  rw [h1, h2, h3, h4]

/-- C9 counterexample: at a value matching none of the four shapes, the
returned error names only the string-map shape; the other attempted shapes —
in particular the plain-string shape — are not named, contradicting the claim
that the error names which of the four shapes were attempted. -/
theorem C9_decodeFailure_counterexample :
    unmarshalGeneric (Val.seq [Val.str "x"]) =
      .error (DecodeErr.mismatch Shape.stringMapShape) ∧
    shapesNamed (DecodeErr.mismatch Shape.stringMapShape) = [Shape.stringMapShape] ∧
    Shape.stringShape ∉ shapesNamed (DecodeErr.mismatch Shape.stringMapShape) ∧
    Shape.extraArgsMapShape ∉ shapesNamed (DecodeErr.mismatch Shape.stringMapShape) ∧
    Shape.attrMapShape ∉ shapesNamed (DecodeErr.mismatch Shape.stringMapShape) :=
  ⟨rfl, rfl, by decide, by decide, by decide⟩

/-- C9 witness: the amended theorem at the concrete unrecognized value `[]`
(a sequence, which none of the four target shapes accepts). -/
theorem C9_decodeFailure_witness :
    unmarshalGeneric (Val.seq []) = .error (DecodeErr.mismatch Shape.stringMapShape) :=
  C9_decodeFailure (Val.seq []) rfl rfl rfl rfl

/-- C10: the extra-args shape's top-level step-name check reuses the full
nine-name set (`validStepName`), so `env` and `multienv` with a single
`extra_args` attribute validate successfully, while a top-level `run` key in
this shape is rejected as not a valid step type. -/
theorem C10_extraArgsNineNames (shells : List String) (a : List String) :
    Validate shells { Map := [(EnvStepName, [(ExtraArgsKey, a)])] } = .ok () ∧
    Validate shells { Map := [(MultiEnvStepName, [(ExtraArgsKey, a)])] } = .ok () ∧
    Validate shells { Map := [(RunStepName, [(ExtraArgsKey, a)])] } =
      .error (quote RunStepName ++ " is not a valid step type") :=
  ⟨rfl, rfl, rfl⟩


theorem ToValid_commandMap_eq (name : String) (args : List (String × String))
    (rest : List (String × List (String × String))) :
    ToValid { CommandMap := (name, args) :: rest } =
      (if name == RunStepName && ((args.lookup OutputArgKey).getD "" == "") then
        some { StepName := name,
               EnvVarName := (args.lookup NameArgKey).getD "",
               RunCommand := (args.lookup CommandArgKey).getD "",
               EnvVarValue := (args.lookup ValueArgKey).getD "",
               RunShell := (args.lookup ShellArgKey).getD "",
               Output := PostProcessRunOutputShow }
       else
        some { StepName := name,
               EnvVarName := (args.lookup NameArgKey).getD "",
               RunCommand := (args.lookup CommandArgKey).getD "",
               EnvVarValue := (args.lookup ValueArgKey).getD "",
               RunShell := (args.lookup ShellArgKey).getD "",
               Output := (args.lookup OutputArgKey).getD "" }) := rfl

/-- C8: for every validator-accepted Step whose attribute map has the sole
key `run` or `multienv`, ToValid sets the run command from the `command`
attribute, the run shell from `shell` when present, and the output mode from
the `output` attribute when present; when `output` is absent the output mode
defaults to `show` for a `run` step only, and no default is forced for
`multienv`. -/
theorem C8_normalizeRunMulti (shells : List String) (name : String)
    (args : List (String × String))
    (hname : name = RunStepName ∨ name = MultiEnvStepName)
    (h : Validate shells { CommandMap := [(name, args)] } = .ok ()) :
    ∃ v, ToValid { CommandMap := [(name, args)] } = some v ∧
      v.StepName = name ∧
      (∀ c, args.lookup CommandArgKey = some c → v.RunCommand = c) ∧
      (∀ sh, args.lookup ShellArgKey = some sh → v.RunShell = sh) ∧
      (∀ o, args.lookup OutputArgKey = some o → v.Output = o) ∧
      (args.lookup OutputArgKey = none → name = RunStepName →
        v.Output = PostProcessRunOutputShow) ∧
      (args.lookup OutputArgKey = none → name = MultiEnvStepName → v.Output = "") := by
  rw [ToValid_commandMap_eq]
  rcases hname with rfl | rfl
  · have hv : runMultiArgsCheck shells RunStepName args = .ok () := by
      rw [Validate_commandMap_singleton, envOrRun_singleton] at h
      simpa [RunStepName, EnvStepName] using h
    have hout : runMultiOutputCheck RunStepName args = .ok () :=
      ((runMultiArgsCheck_ok_iff shells RunStepName args).mp hv).2.1
    cases ho : args.lookup OutputArgKey with
    | none =>
      rw [if_pos (by simp [ho])]
      refine ⟨_, rfl, rfl, ?_, ?_, ?_, ?_, ?_⟩
      · intro c hc
        simp [hc]
      · intro sh hsh
        simp [hsh]
      · intro o hosome
        exact Option.noConfusion hosome
      · intro _ _
        rfl
      · intro _ hM
        exact absurd hM (by simp [RunStepName, MultiEnvStepName])
    | some o =>
      have hne : o ≠ "" := by
        rcases (runMultiOutputCheck_run_ok args).mp hout o ho with h1 | h1 | h1 <;>
          (subst h1; simp [PostProcessRunOutputShow, PostProcessRunOutputHide,
            PostProcessRunOutputStripRefreshing])
      rw [if_neg (by simp [ho, hne])]
      refine ⟨_, rfl, rfl, ?_, ?_, ?_, ?_, ?_⟩
      · intro c hc
        simp [hc]
      · intro sh hsh
        simp [hsh]
      · intro o2 ho2
        obtain rfl : o = o2 := by simpa using ho2
        simp
      · intro hnone
        exact Option.noConfusion hnone
      · intro hnone
        exact Option.noConfusion hnone
  · rw [if_neg (by simp [RunStepName, MultiEnvStepName])]
    refine ⟨_, rfl, rfl, ?_, ?_, ?_, ?_, ?_⟩
    · intro c hc
      simp [hc]
    · intro sh hsh
      simp [hsh]
    · intro o ho
      simp [ho]
    · intro _ hR
      exact absurd hR (by simp [RunStepName, MultiEnvStepName])
    · intro hnone _
      simp [hnone]

/-- C8 witness: the theorem at a concrete validated `run` attribute map. -/
theorem C8_normalizeRunMulti_witness :
    ∃ v, ToValid { CommandMap := [("run", [("command", "echo")])] } = some v ∧
      v.StepName = "run" ∧
      (∀ c, [("command", "echo")].lookup CommandArgKey = some c → v.RunCommand = c) ∧
      (∀ sh, [("command", "echo")].lookup ShellArgKey = some sh → v.RunShell = sh) ∧
      (∀ o, [("command", "echo")].lookup OutputArgKey = some o → v.Output = o) ∧
      ([("command", "echo")].lookup OutputArgKey = none → "run" = RunStepName →
        v.Output = PostProcessRunOutputShow) ∧
      ([("command", "echo")].lookup OutputArgKey = none → "run" = MultiEnvStepName →
        v.Output = "") :=
  C8_normalizeRunMulti ["sh"] "run" [("command", "echo")] (Or.inl rfl) rfl

end AtlantisStep
